import Mathlib

/-!
Verification of the ai-todo-manager request handlers.

This file embeds, as executable Lean definitions, the decision logic of
the two AI request handlers of the repository and of the client-side
analysis handler:

* the natural-language task normalizer route (`validateInput`,
  `preprocessInput` and the post-generation validation/repair pass on the
  object returned by the completion service), and
* the productivity summarizer route (input validation and the
  deterministic statistics it computes), together with the client handler
  that filters the task list and guards the empty case.

Strings are modelled as Lean `String`s; JavaScript `trim`, length and
`substring` act on the code-point list (`String.toList`), and JavaScript
truthiness of a possibly-absent string is modelled explicitly.  Calendar
dates are year/month/day triples; `new Date("YYYY-MM-DDT00:00:00")`
yielding `NaN` is modelled by the real-calendar-date check, and the `<`
comparison of two such local midnights by lexicographic date order.
-/

/-- JavaScript `String.prototype.trim`: strip leading and trailing
whitespace, acting on the code-point list. -/
def jsTrim (s : String) : String :=
  String.mk (((s.toList.dropWhile Char.isWhitespace).reverse.dropWhile
    Char.isWhitespace).reverse)

/-- The decimal digit character for `n % 10`-style values. -/
def digitChar (n : Nat) : Char := Char.ofNat (48 + n)

/-- Numeric value of a decimal digit character. -/
def digitVal (c : Char) : Nat := c.toNat - 48

/-- A calendar date as the `YYYY-MM-DD` strings of the code denote one. -/
structure CalDate where
  year : Nat
  month : Nat
  day : Nat
deriving DecidableEq, Repr

/-- Gregorian leap-year rule, as `new Date` applies it. -/
def isLeapYear (y : Nat) : Bool :=
  decide ((y % 4 = 0 ∧ y % 100 ≠ 0) ∨ y % 400 = 0)

/-- Number of days of a month, as `new Date` validates them. -/
def daysInMonth (y m : Nat) : Nat :=
  if m = 2 then (if isLeapYear y then 29 else 28)
  else if m = 4 ∨ m = 6 ∨ m = 9 ∨ m = 11 then 30
  else 31

/-- A real calendar date: exactly the `YYYY-MM-DD` strings for which
`new Date(s + "T00:00:00")` is not `NaN`. -/
def isValidDate (dt : CalDate) : Bool :=
  decide (1 ≤ dt.month ∧ dt.month ≤ 12 ∧ 1 ≤ dt.day ∧
    dt.day ≤ daysInMonth dt.year dt.month)

/-- Strict order on calendar dates: the `parsedDate < todayDate`
comparison of the route, both dates taken at local midnight. -/
def dateLt (a b : CalDate) : Bool :=
  decide (a.year < b.year ∨ (a.year = b.year ∧
    (a.month < b.month ∨ (a.month = b.month ∧ a.day < b.day))))

/-- Parse a string against the route's date regex `^\d{4}-\d{2}-\d{2}$`:
returns the year/month/day triple exactly when the string matches. -/
def parseDate (s : String) : Option CalDate :=
  match s.toList with
  | [y1, y2, y3, y4, h1, m1, m2, h2, d1, d2] =>
    if y1.isDigit && y2.isDigit && y3.isDigit && y4.isDigit && h1 == '-' &&
        m1.isDigit && m2.isDigit && h2 == '-' && d1.isDigit && d2.isDigit then
      some ⟨digitVal y1 * 1000 + digitVal y2 * 100 + digitVal y3 * 10 + digitVal y4,
            digitVal m1 * 10 + digitVal m2,
            digitVal d1 * 10 + digitVal d2⟩
    else none
  | _ => none

/-- The route's date regex `^\d{4}-\d{2}-\d{2}$` (line 236 of the
generate-todo route); a string matches it exactly when `parseDate`
succeeds on it. -/
def matchesDateRegex (s : String) : Bool := (parseDate s).isSome

/-- The route's time regex `^([01]?[0-9]|2[0-3]):[0-5][0-9]$` (line 261 of
the generate-todo route), on the code-point list.  Note the `?`: a
single-digit hour is accepted. -/
def matchesTimeRegexChars : List Char → Bool
  | [h, ':', m1, m2] =>
    h.isDigit && decide ('0' ≤ m1 ∧ m1 ≤ '5') && m2.isDigit
  | [h1, h2, ':', m1, m2] =>
    ((h1 == '0' || h1 == '1') && h2.isDigit ||
      h1 == '2' && decide ('0' ≤ h2 ∧ h2 ≤ '3')) &&
    decide ('0' ≤ m1 ∧ m1 ≤ '5') && m2.isDigit
  | _ => false

/-- The route's time regex applied to a string. -/
def matchesTimeRegex (s : String) : Bool := matchesTimeRegexChars s.toList

/-- Modelled from the spec: the strict two-digit 24-hour `HH:MM` pattern
the specification claims for the output due time, on the code-point
list. -/
def matchesStrictTimeRegexChars : List Char → Bool
  | [h1, h2, ':', m1, m2] =>
    ((h1 == '0' || h1 == '1') && h2.isDigit ||
      h1 == '2' && decide ('0' ≤ h2 ∧ h2 ≤ '3')) &&
    decide ('0' ≤ m1 ∧ m1 ≤ '5') && m2.isDigit
  | _ => false

/-- Modelled from the spec: the strict two-digit 24-hour `HH:MM` pattern
applied to a string.  This is the specification-side pattern to compare
against the route's actual regex `matchesTimeRegex`. -/
def matchesStrictTimeRegex (s : String) : Bool :=
  matchesStrictTimeRegexChars s.toList

/-- Zero-padded four-digit decimal rendering (the year of
`toISOString().split("T")[0]`). -/
def padDigits4 (n : Nat) : List Char :=
  [digitChar (n / 1000 % 10), digitChar (n / 100 % 10),
   digitChar (n / 10 % 10), digitChar (n % 10)]

/-- Zero-padded two-digit decimal rendering. -/
def padDigits2 (n : Nat) : List Char :=
  [digitChar (n / 10 % 10), digitChar (n % 10)]

/-- The `YYYY-MM-DD` rendering of a calendar date: the `today` string the
route derives from the reference instant. -/
def formatDate (dt : CalDate) : String :=
  String.mk (padDigits4 dt.year ++ ['-'] ++ padDigits2 dt.month ++ ['-'] ++
    padDigits2 dt.day)

/-! ### The natural-language task normalizer route -/

/-- The request body's `naturalLanguageInput` value: absent (or another
falsy non-string), a non-string value, or a string. -/
inductive NLInput
  | absent
  | nonString
  | str (s : String)
deriving DecidableEq, Repr

/-- Result shape of `validateInput`. -/
structure ValidationResult where
  valid : Bool
  error : Option String
  status : Option Nat
deriving DecidableEq, Repr

/-- `validateInput` of the generate-todo route (lines 33-72). -/
def validateInput (input : NLInput) : ValidationResult :=
  match input with
  | .absent => ⟨false, some "자연어 입력이 필요합니다.", some 400⟩
  | .nonString => ⟨false, some "자연어 입력이 필요합니다.", some 400⟩
  | .str s =>
    if s.toList.isEmpty then ⟨false, some "자연어 입력이 필요합니다.", some 400⟩
    else
      let trimmed := jsTrim s
      if trimmed.toList.length = 0 then
        ⟨false, some "입력 내용이 비어있습니다.", some 400⟩
      else if trimmed.toList.length < 2 then
        ⟨false, some "입력은 최소 2자 이상이어야 합니다.", some 400⟩
      else if trimmed.toList.length > 500 then
        ⟨false, some "입력은 최대 500자까지 가능합니다.", some 400⟩
      else ⟨true, none, none⟩

/-- Auxiliary length bound for the whitespace-collapse recursion. -/
theorem dropWhile_length_le {α : Type} (p : α → Bool) (l : List α) :
    (l.dropWhile p).length ≤ l.length := by
  induction l with
  | nil => simp
  | cons a l ih =>
    rw [List.dropWhile]
    split
    · exact le_trans ih (by simp)
    · exact le_refl _

/-- `replace(/\s+/g, " ")`: collapse every maximal run of whitespace into
a single space. -/
def collapseWs : List Char → List Char
  | [] => []
  | c :: rest =>
    if c.isWhitespace then ' ' :: collapseWs (rest.dropWhile Char.isWhitespace)
    else c :: collapseWs rest
termination_by l => l.length
decreasing_by
  · exact Nat.lt_succ_of_le (dropWhile_length_le Char.isWhitespace rest)
  · exact Nat.lt_succ_of_le (le_refl _)

/-- `preprocessInput` of the generate-todo route (lines 16-30): trim, then
collapse whitespace runs. -/
def preprocessInput (s : String) : String :=
  String.mk (collapseWs (jsTrim s).toList)

/-- How far the generate-todo route gets before the completion service
would be invoked: either an error response (with its HTTP status and
`success` flag) is returned first, or the route reaches the
`generateObject` call with the preprocessed input. -/
inductive NormStep
  | rejected (status : Nat) (success : Bool) (error : String)
  | serviceCall (processedInput : String)
deriving DecidableEq, Repr

/-- The generate-todo route up to the completion-service call
(lines 74-98): input validation, preprocessing and the API-key check. -/
def generateTodoStep (input : NLInput) (apiKeyPresent : Bool) : NormStep :=
  let validation := validateInput input
  if validation.valid then
    match input with
    | .str s =>
      if apiKeyPresent then .serviceCall (preprocessInput s)
      else .rejected 500 false "AI 서비스 설정 오류가 발생했습니다."
    -- unreachable: validateInput never marks a non-string input valid
    | _ => .rejected 400 false "자연어 입력이 필요합니다."
  else
    .rejected (validation.status.getD 400) false
      (validation.error.getD "할 일 생성 중 오류가 발생했습니다.")

/-- The `category` value of the object the completion service returned:
absent (or another falsy value), present but not an array, or an array of
strings. -/
inductive CatField
  | missing
  | notList
  | ofList (cats : List String)
deriving DecidableEq, Repr

/-- The draft object the completion service hands back to the route
(`result.object`), before the post-generation validation/repair pass.
String fields may be absent. -/
structure Draft where
  title : Option String
  description : Option String
  due_date : Option String
  due_time : Option String
  priority : Option String
  category : CatField
deriving DecidableEq, Repr

/-- JavaScript truthiness test of a possibly-absent string field:
`!x` holds for an absent value and for the empty string. -/
def strFalsy (x : Option String) : Bool :=
  match x with
  | none => true
  | some s => s.toList.isEmpty

/-- The post-generation validation/repair pass of the generate-todo route
(lines 200-273), with `ref` the reference date parsed from the `today`
string. -/
def repairDraft (d : Draft) (ref : CalDate) : Draft :=
  let today := formatDate ref
  -- lines 204-206: absent or blank title gets the generic placeholder
  let title0 : String :=
    match d.title with
    | none => "할 일"
    | some t => if (jsTrim t).toList.isEmpty then "할 일" else t
  -- lines 208-210: absent due date defaults to today
  let dueDate0 : String :=
    match d.due_date with
    | none => today
    | some s => if s.toList.isEmpty then today else s
  -- lines 212-214: absent priority defaults to medium
  let priority0 : String :=
    match d.priority with
    | none => "medium"
    | some p => if p.toList.isEmpty then "medium" else p
  -- lines 216-218: absent or non-array category defaults to ["개인"]
  let category0 : List String :=
    match d.category with
    | .ofList cats => cats
    | _ => ["개인"]
  -- lines 220-231: trim the title, re-placeholder if empty, truncate at 200
  let processedTitle := jsTrim title0
  let title1 : String :=
    if processedTitle.toList.length < 1 then "할 일"
    else if processedTitle.toList.length > 200 then
      String.mk (processedTitle.toList.take 200) ++ "..."
    else processedTitle
  -- lines 233-255: regex check, NaN check, past-date check
  let dueDate1 : String :=
    match parseDate dueDate0 with
    | none => today
    | some dt =>
      if !(isValidDate dt) then today
      else if dateLt dt ref then today
      else dueDate0
  -- lines 257-265: absent or non-matching time defaults to 09:00
  let dueTime1 : String :=
    match d.due_time with
    | none => "09:00"
    | some t =>
      if t.toList.isEmpty then "09:00"
      else if matchesTimeRegex t then t else "09:00"
  -- lines 267-273: trim the description if present, truncate at 1000
  let description1 : Option String :=
    match d.description with
    | none => none
    | some s =>
      if s.toList.isEmpty then some s
      else
        let tr := jsTrim s
        if tr.toList.length > 1000 then
          some (String.mk (tr.toList.take 1000) ++ "...")
        else some tr
  { title := some title1, description := description1,
    due_date := some dueDate1, due_time := some dueTime1,
    priority := some priority0, category := .ofList category0 }

/-- A due-date field value the repair pass must replace with the reference
date: absent, blank, failing the regex, an unreal calendar date, or a
date strictly before the reference date. -/
def badDueDate (field : Option String) (ref : CalDate) : Prop :=
  match field with
  | none => True
  | some raw =>
    raw.toList.isEmpty = true ∨
    parseDate raw = none ∨
    ∃ dt, parseDate raw = some dt ∧
      (isValidDate dt = false ∨ dateLt dt ref = true)

/-! ### The productivity summarizer route -/

/-- Task priority enum. -/
inductive Priority
  | high
  | medium
  | low
deriving DecidableEq, Repr

/-- A due timestamp, as the summarizer consumes it: a point on the
timeline (for period filtering) together with the local hour of day that
`getHours()` reports. -/
structure DueStamp where
  epoch : Int
  hour : Nat
deriving DecidableEq, Repr

/-- The task shape the summarizer route receives. -/
structure TodoT where
  title : String
  priority : Priority
  category : List String
  completed : Bool
  due : Option DueStamp
deriving DecidableEq, Repr

/-- `totalTasks` (line 436 of the analyze-todos route). -/
def totalTasks (todos : List TodoT) : Nat := todos.length

/-- `completedTasks` (line 437). -/
def completedTasks (todos : List TodoT) : Nat :=
  (todos.filter (fun t => t.completed)).length

/-- `incompleteTasks` (line 438). -/
def incompleteTasks (todos : List TodoT) : Nat :=
  totalTasks todos - completedTasks todos

/-- `completionRate` (line 439). -/
def completionRate (todos : List TodoT) : ℚ :=
  if totalTasks todos > 0 then
    (completedTasks todos : ℚ) / (totalTasks todos : ℚ) * 100
  else 0

/-- The three time slots, in the insertion order of the route's
`timeSlotCount` object literal. -/
inductive Slot
  | morning
  | afternoon
  | evening
deriving DecidableEq, Repr

/-- Per-slot counters. -/
structure SlotStats where
  total : Nat
  completed : Nat
deriving DecidableEq, Repr

/-- All three slots' counters. -/
structure TimeSlots where
  morning : SlotStats
  afternoon : SlotStats
  evening : SlotStats
deriving DecidableEq, Repr

/-- The slot a due hour falls in (lines 516-519): before 12 morning,
before 18 afternoon, otherwise evening. -/
def slotOfHour (hour : Nat) : Slot :=
  if hour < 12 then .morning else if hour < 18 then .afternoon else .evening

/-- Increment a slot's counters for one task. -/
def bumpSlot (s : SlotStats) (completed : Bool) : SlotStats :=
  ⟨s.total + 1, if completed then s.completed + 1 else s.completed⟩

/-- One step of the `todos.forEach` loop building `timeSlotCount`
(lines 512-526): tasks without a due date are skipped. -/
def timeSlotStep (acc : TimeSlots) (t : TodoT) : TimeSlots :=
  match t.due with
  | none => acc
  | some d =>
    match slotOfHour d.hour with
    | .morning => { acc with morning := bumpSlot acc.morning t.completed }
    | .afternoon => { acc with afternoon := bumpSlot acc.afternoon t.completed }
    | .evening => { acc with evening := bumpSlot acc.evening t.completed }

/-- `timeSlotCount` (lines 506-526). -/
def timeSlotCount (todos : List TodoT) : TimeSlots :=
  todos.foldl timeSlotStep ⟨⟨0, 0⟩, ⟨0, 0⟩, ⟨0, 0⟩⟩

/-- A slot's completion rate (line 559):
`total > 0 ? completed / total * 100 : 0`. -/
def slotRate (s : SlotStats) : ℚ :=
  if s.total > 0 then (s.completed : ℚ) / (s.total : ℚ) * 100 else 0

/-- `mostProductiveTimeSlot` (lines 556-561): map the three entries, in
insertion order, to their rates, stable-sort descending by rate, take the
first.  `Array.prototype.sort` is stable, so `List.mergeSort` models it. -/
def mostProductiveTimeSlot (todos : List TodoT) : Slot × ℚ :=
  let ts := timeSlotCount todos
  let entries : List (Slot × ℚ) :=
    [(.morning, slotRate ts.morning), (.afternoon, slotRate ts.afternoon),
     (.evening, slotRate ts.evening)]
  (entries.mergeSort (fun a b => decide (b.2 ≤ a.2))).headD (.morning, 0)

/-- The request body's `todos` value for the analyze route. -/
inductive TodosField
  | absent
  | notList
  | ofList (todos : List TodoT)
deriving DecidableEq, Repr

/-- The request body's `period` value for the analyze route. -/
inductive PeriodField
  | absent
  | str (s : String)
deriving DecidableEq, Repr

/-- How far the analyze-todos route gets before the completion service
would be invoked. -/
inductive AnalyzeStep
  | rejected (status : Nat) (success : Bool) (error : String)
  | serviceCall (todos : List TodoT) (period : String)
deriving DecidableEq, Repr

/-- The analyze-todos route up to the completion-service call
(lines 406-433): validation of `todos` and `period`, then the API-key
check. -/
def analyzeTodosStep (todos : TodosField) (period : PeriodField)
    (apiKeyPresent : Bool) : AnalyzeStep :=
  match todos with
  | .absent => .rejected 400 false "할 일 목록이 필요합니다."
  | .notList => .rejected 400 false "할 일 목록이 필요합니다."
  | .ofList ts =>
    match period with
    | .absent => .rejected 400 false "분석 기간이 필요합니다 (today/week)."
    | .str p =>
      if p.toList.isEmpty then
        .rejected 400 false "분석 기간이 필요합니다 (today/week)."
      else if p ≠ "today" ∧ p ≠ "week" then
        .rejected 400 false "분석 기간이 필요합니다 (today/week)."
      else if !apiKeyPresent then
        .rejected 500 false "AI 서비스 설정 오류가 발생했습니다."
      else .serviceCall ts p

/-! ### The client-side analysis handler -/

/-- The period selector of the client handler. -/
inductive Period
  | today
  | week
deriving DecidableEq, Repr

/-- The period boundaries the client handler computes from the current
instant (`todayStart`/`todayEnd`, `weekStart`/`weekEnd`). -/
structure PeriodBounds where
  todayStart : Int
  todayEnd : Int
  weekStart : Int
  weekEnd : Int
deriving DecidableEq, Repr

/-- Outcome of `handleAnalyzeTodos`: either the caller-facing
"nothing to analyze" condition (set before any request is sent), or the
fetch of the summarizer route with the filtered list. -/
inductive AnalyzeOutcome
  | nothingToAnalyze (message : String)
  | fetchSummarizer (todos : List TodoT) (period : Period)
deriving DecidableEq, Repr

/-- The period filter of `handleAnalyzeTodos`: tasks without a due date
are dropped; otherwise the due instant must fall in the half-open period
window. -/
def inPeriod (b : PeriodBounds) (period : Period) (t : TodoT) : Bool :=
  match t.due with
  | none => false
  | some d =>
    match period with
    | .today => decide (b.todayStart ≤ d.epoch ∧ d.epoch < b.todayEnd)
    | .week => decide (b.weekStart ≤ d.epoch ∧ d.epoch < b.weekEnd)

/-- `handleAnalyzeTodos` of the dashboard page (lines 575-614 of
`page.tsx`), up to the fetch of the summarizer route: filter the task
list to the period, and return the "nothing to analyze" message without
fetching when the filtered list is empty. -/
def handleAnalyzeTodos (todos : List TodoT) (period : Period)
    (b : PeriodBounds) : AnalyzeOutcome :=
  let filteredTodos := todos.filter (inPeriod b period)
  if filteredTodos.length = 0 then .nothingToAnalyze "분석할 할 일이 없습니다."
  else .fetchSummarizer filteredTodos period

/-- Whether a task carries a due timestamp. -/
def hasDue (t : TodoT) : Bool := t.due.isSome

/-- Whether a task carries a due timestamp falling in the given slot. -/
def dueInSlot (s : Slot) (t : TodoT) : Bool :=
  match t.due with
  | none => false
  | some d => decide (slotOfHour d.hour = s)

/-! ### Auxiliary lemmas -/

/-- Stable merge sort of a two-element list. -/
theorem mergeSort_pair {α : Type} (le : α → α → Bool) (a b : α) :
    [a, b].mergeSort le = if le a b then [a, b] else [b, a] := by
  simp [List.mergeSort, List.splitInTwo, List.merge]

/-- Head of the stable merge sort of a three-element list. -/
theorem mergeSort_three_head {α : Type} (le : α → α → Bool) (a b c dflt : α) :
    (([a, b, c].mergeSort le).headD dflt) =
      (if le a b then (if le a c then a else c)
       else (if le b c then b else c)) := by
  simp only [List.mergeSort, List.splitInTwo, List.merge]
  split <;> split <;> simp_all [mergeSort_pair, List.merge]

/-- `digitChar` of a digit value is a digit character. -/
theorem digitChar_isDigit {k : Nat} (h : k < 10) :
    (digitChar k).isDigit = true := by
  interval_cases k <;> decide

/-- `digitVal` inverts `digitChar` on digit values. -/
theorem digitVal_digitChar {k : Nat} (h : k < 10) :
    digitVal (digitChar k) = k := by
  interval_cases k <;> decide

/-- Every month has at most 31 days. -/
theorem daysInMonth_le (y m : Nat) : daysInMonth y m ≤ 31 := by
  unfold daysInMonth
  split_ifs <;> omega

/-- The date order is irreflexive. -/
theorem dateLt_irrefl (dt : CalDate) : dateLt dt dt = false := by
  simp [dateLt]

/-- Parsing inverts formatting for dates with in-range components. -/
theorem parseDate_formatDate (dt : CalDate) (hy : dt.year < 10000)
    (hm : dt.month < 100) (hd : dt.day < 100) :
    parseDate (formatDate dt) = some dt := by
  obtain ⟨y, m, d⟩ := dt
  simp only at hy hm hd
  have h1 : y / 1000 % 10 < 10 := Nat.mod_lt _ (by norm_num)
  have h2 : y / 100 % 10 < 10 := Nat.mod_lt _ (by norm_num)
  have h3 : y / 10 % 10 < 10 := Nat.mod_lt _ (by norm_num)
  have h4 : y % 10 < 10 := Nat.mod_lt _ (by norm_num)
  have h5 : m / 10 % 10 < 10 := Nat.mod_lt _ (by norm_num)
  have h6 : m % 10 < 10 := Nat.mod_lt _ (by norm_num)
  have h7 : d / 10 % 10 < 10 := Nat.mod_lt _ (by norm_num)
  have h8 : d % 10 < 10 := Nat.mod_lt _ (by norm_num)
  have hlist : (formatDate ⟨y, m, d⟩).toList =
      [digitChar (y / 1000 % 10), digitChar (y / 100 % 10),
       digitChar (y / 10 % 10), digitChar (y % 10), '-',
       digitChar (m / 10 % 10), digitChar (m % 10), '-',
       digitChar (d / 10 % 10), digitChar (d % 10)] := by
    simp [formatDate, padDigits4, padDigits2, String.toList]
  unfold parseDate
  rw [hlist]
  simp only [digitChar_isDigit h1, digitChar_isDigit h2, digitChar_isDigit h3,
    digitChar_isDigit h4, digitChar_isDigit h5, digitChar_isDigit h6,
    digitChar_isDigit h7, digitChar_isDigit h8,
    digitVal_digitChar h1, digitVal_digitChar h2, digitVal_digitChar h3,
    digitVal_digitChar h4, digitVal_digitChar h5, digitVal_digitChar h6,
    digitVal_digitChar h7, digitVal_digitChar h8]
  simp only [beq_self_eq_true, Bool.and_true, Bool.true_and, if_true]
  simp only [Option.some.injEq, CalDate.mk.injEq]
  omega

/-- The lenient time regex rejects the empty string. -/
theorem matchesTimeRegexChars_nil : matchesTimeRegexChars [] = false := rfl

/-- A string matching the strict two-digit pattern also matches the
route's lenient regex. -/
theorem strict_time_imp_lenient {l : List Char}
    (h : matchesStrictTimeRegexChars l = true) :
    matchesTimeRegexChars l = true := by
  unfold matchesStrictTimeRegexChars at h
  split at h
  · simpa [matchesTimeRegexChars] using h
  · exact absurd h (by simp)

/-- A string matching the strict two-digit pattern is nonempty. -/
theorem strict_time_ne_nil {l : List Char}
    (h : matchesStrictTimeRegexChars l = true) : l ≠ [] := by
  intro hnil
  subst hnil
  exact absurd h (by decide)

/-- The empty string fails the route's time regex. -/
theorem matchesTimeRegex_of_empty {s : String} (h : s.toList.isEmpty = true) :
    matchesTimeRegex s = false := by
  unfold matchesTimeRegex
  rw [List.isEmpty_iff.mp h]
  exact matchesTimeRegexChars_nil

/-- A successfully parsed date string is nonempty. -/
theorem parseDate_ne_nil {s : String} {dt : CalDate}
    (h : parseDate s = some dt) : s.toList.isEmpty = false := by
  unfold parseDate at h
  split at h
  · next heq => rw [heq]; rfl
  · exact absurd h (by simp)

/-- The due-date field of the repaired draft, unfolded. -/
theorem repairDraft_due_date (d : Draft) (ref : CalDate) :
    (repairDraft d ref).due_date = some (
      match parseDate (match d.due_date with
        | none => formatDate ref
        | some s => if s.toList.isEmpty then formatDate ref else s) with
      | none => formatDate ref
      | some dt =>
        if !(isValidDate dt) then formatDate ref
        else if dateLt dt ref then formatDate ref
        else (match d.due_date with
          | none => formatDate ref
          | some s => if s.toList.isEmpty then formatDate ref else s)) := rfl

/-- The due-time field of the repaired draft, unfolded. -/
theorem repairDraft_due_time (d : Draft) (ref : CalDate) :
    (repairDraft d ref).due_time = some (
      match d.due_time with
      | none => "09:00"
      | some t =>
        if t.toList.isEmpty then "09:00"
        else if matchesTimeRegex t then t else "09:00") := rfl

/-- The category field of the repaired draft, unfolded. -/
theorem repairDraft_category (d : Draft) (ref : CalDate) :
    (repairDraft d ref).category = .ofList (
      match d.category with
      | .ofList cats => cats
      | _ => ["개인"]) := rfl

/-- Case analysis of the repaired due date: either it was replaced by the
reference date, or the service-provided string passed every check and was
kept. -/
theorem repair_due_date_cases (d : Draft) (ref : CalDate)
    (href : isValidDate ref = true) (hy : ref.year < 10000) :
    (repairDraft d ref).due_date = some (formatDate ref) ∨
    ∃ raw dt, d.due_date = some raw ∧ (repairDraft d ref).due_date = some raw ∧
      parseDate raw = some dt ∧ isValidDate dt = true ∧ dateLt dt ref = false := by
  have hb : 1 ≤ ref.month ∧ ref.month ≤ 12 ∧ 1 ≤ ref.day ∧
      ref.day ≤ daysInMonth ref.year ref.month := by
    simpa [isValidDate] using href
  have hm : ref.month < 100 := by omega
  have hd : ref.day < 100 := by
    have := daysInMonth_le ref.year ref.month
    omega
  have hrt : parseDate (formatDate ref) = some ref :=
    parseDate_formatDate ref hy hm hd
  have hirr : dateLt ref ref = false := dateLt_irrefl ref
  rcases hdd : d.due_date with _ | raw
  · left
    rw [repairDraft_due_date, hdd]
    simp only [hrt, href, hirr, Bool.not_true, Bool.false_eq_true, if_false]
  · cases hE : raw.toList.isEmpty with
    | true =>
      left
      rw [repairDraft_due_date, hdd]
      simp only [hE, if_true, hrt, href, hirr, Bool.not_true,
        Bool.false_eq_true, if_false]
    | false =>
      rcases hp : parseDate raw with _ | dt
      · left
        rw [repairDraft_due_date, hdd]
        simp only [hE, Bool.false_eq_true, if_false, hp, hrt, href, hirr,
          Bool.not_true]
      · cases hv : isValidDate dt with
        | false =>
          left
          rw [repairDraft_due_date, hdd]
          simp only [hE, Bool.false_eq_true, if_false, hp, hv, Bool.not_false,
            if_true]
        | true =>
          cases hl : dateLt dt ref with
          | true =>
            left
            rw [repairDraft_due_date, hdd]
            simp only [hE, Bool.false_eq_true, if_false, hp, hv, hl,
              Bool.not_true, if_true]
          | false =>
            right
            refine ⟨raw, dt, rfl, ?_, hp, hv, hl⟩
            rw [repairDraft_due_date, hdd]
            simp only [hE, Bool.false_eq_true, if_false, hp, hv, hl,
              Bool.not_true]

/-- C1: for every value the completion service returns, the normalizer's
output due date is a string matching the `YYYY-MM-DD` pattern that parses
to a real calendar date not strictly earlier than the reference date, and
any missing, malformed, unparseable, or past date is replaced with the
reference date. -/
theorem repair_due_date_always_valid (d : Draft) (ref : CalDate)
    (href : isValidDate ref = true) (hy : ref.year < 10000) :
    (∃ s dt, (repairDraft d ref).due_date = some s ∧
      matchesDateRegex s = true ∧ parseDate s = some dt ∧
      isValidDate dt = true ∧ dateLt dt ref = false) ∧
    (badDueDate d.due_date ref →
      (repairDraft d ref).due_date = some (formatDate ref)) := by
  have hb : 1 ≤ ref.month ∧ ref.month ≤ 12 ∧ 1 ≤ ref.day ∧
      ref.day ≤ daysInMonth ref.year ref.month := by
    simpa [isValidDate] using href
  have hm : ref.month < 100 := by omega
  have hd : ref.day < 100 := by
    have := daysInMonth_le ref.year ref.month
    omega
  have hrt : parseDate (formatDate ref) = some ref :=
    parseDate_formatDate ref hy hm hd
  rcases repair_due_date_cases d ref href hy with
    h | ⟨raw, dt, hdd, hout, hp, hv, hl⟩
  · constructor
    · exact ⟨formatDate ref, ref, h, by simp [matchesDateRegex, hrt], hrt,
        href, dateLt_irrefl ref⟩
    · intro _
      exact h
  · constructor
    · exact ⟨raw, dt, hout, by simp [matchesDateRegex, hp], hp, hv, hl⟩
    · intro hbad
      rw [hdd] at hbad
      simp only [badDueDate] at hbad
      rcases hbad with hbad | hbad | ⟨dt2, hp2, hbad2⟩
      · rw [parseDate_ne_nil hp] at hbad
        exact absurd hbad (by simp)
      · rw [hp] at hbad
        exact absurd hbad (by simp)
      · rw [hp, Option.some.injEq] at hp2
        subst hp2
        rcases hbad2 with h2 | h2
        · rw [hv] at h2
          exact absurd h2 (by simp)
        · rw [hl] at h2
          exact absurd h2 (by simp)

/-- Witness for C1 at a concrete draft and reference date: the service
omitted the due date, so the output is the formatted reference date. -/
theorem repair_due_date_always_valid_witness :
    isValidDate ⟨2026, 1, 15⟩ = true ∧ (2026 : Nat) < 10000 ∧
    (repairDraft ⟨none, none, none, none, none, .missing⟩
        ⟨2026, 1, 15⟩).due_date = some (formatDate ⟨2026, 1, 15⟩) :=
  ⟨by decide, by decide,
    (repair_due_date_always_valid ⟨none, none, none, none, none, .missing⟩
      ⟨2026, 1, 15⟩ (by decide) (by decide)).2 trivial⟩

/-- C3 counterexample: the service returned the one-digit-hour time
"9:30", which the route's lenient regex accepts and keeps, so the output
due time does not match the strict two-digit 24-hour `HH:MM` pattern and
is not replaced by "09:00". -/
theorem due_time_strict_pattern_cex :
    (repairDraft ⟨some "회의", none, some "2026-03-02", some "9:30",
        some "high", .ofList ["업무"]⟩ ⟨2026, 1, 15⟩).due_time = some "9:30" ∧
    matchesStrictTimeRegex "9:30" = false := by
  constructor
  · decide
  · decide

/-- C3 (amended): the normalizer's output due time always matches the
route's lenient time regex `([01]?[0-9]|2[0-3]):[0-5][0-9]` (hour 0-23
with an optional leading zero, two-digit minute), and whenever the
service-provided time is absent or fails that lenient regex the output is
exactly "09:00". -/
theorem repair_due_time_lenient (d : Draft) (ref : CalDate) :
    ∃ t, (repairDraft d ref).due_time = some t ∧ matchesTimeRegex t = true ∧
      (match d.due_time with
       | none => t = "09:00"
       | some raw =>
         if matchesTimeRegex raw = true then t = raw else t = "09:00") := by
  rw [repairDraft_due_time]
  rcases hdt : d.due_time with _ | raw
  · simp only [hdt]
    exact ⟨"09:00", rfl, by decide, rfl⟩
  · simp only [hdt]
    cases hE : raw.toList.isEmpty with
    | true =>
      rw [if_pos rfl, matchesTimeRegex_of_empty hE]
      simp only [Bool.false_eq_true, if_false]
      exact ⟨"09:00", rfl, by decide, rfl⟩
    | false =>
      simp only [Bool.false_eq_true, if_false]
      cases hR : matchesTimeRegex raw with
      | true =>
        exact ⟨raw, rfl, hR, by simp⟩
      | false =>
        simp only [Bool.false_eq_true, if_false]
        exact ⟨"09:00", rfl, by decide, rfl⟩

/-- C5: whenever the completion service omits the category field or
returns something that is not a list of strings, the normalizer's output
category is exactly the one-element list ["개인"] (personal). -/
theorem repair_category_default (d : Draft) (ref : CalDate)
    (h : d.category = .missing ∨ d.category = .notList) :
    (repairDraft d ref).category = .ofList ["개인"] := by
  rw [repairDraft_category]
  rcases h with h | h <;> rw [h]

/-- Witness for C5: a draft whose category field is absent. -/
theorem repair_category_default_witness :
    (repairDraft ⟨none, none, none, none, none, .missing⟩
        ⟨2026, 1, 15⟩).category = .ofList ["개인"] :=
  repair_category_default ⟨none, none, none, none, none, .missing⟩
    ⟨2026, 1, 15⟩ (Or.inl rfl)

/-- The title field of the repaired draft, unfolded. -/
theorem repairDraft_title (d : Draft) (ref : CalDate) :
    (repairDraft d ref).title = some (
      let title0 := match d.title with
        | none => "할 일"
        | some t => if (jsTrim t).toList.isEmpty then "할 일" else t
      let processedTitle := jsTrim title0
      if processedTitle.toList.length < 1 then "할 일"
      else if processedTitle.toList.length > 200 then
        String.mk (processedTitle.toList.take 200) ++ "..."
      else processedTitle) := rfl

/-- The priority field of the repaired draft, unfolded. -/
theorem repairDraft_priority (d : Draft) (ref : CalDate) :
    (repairDraft d ref).priority = some (
      match d.priority with
      | none => "medium"
      | some p => if p.toList.isEmpty then "medium" else p) := rfl

/-- The description field of the repaired draft, unfolded. -/
theorem repairDraft_description (d : Draft) (ref : CalDate) :
    (repairDraft d ref).description = (
      match d.description with
      | none => none
      | some s =>
        if s.toList.isEmpty then some s
        else
          let tr := jsTrim s
          if tr.toList.length > 1000 then
            some (String.mk (tr.toList.take 1000) ++ "...")
          else some tr) := rfl

attribute [ext] Draft

/-- A nonempty list is not `isEmpty`. -/
theorem isEmpty_false_of_ne_nil {α : Type} {l : List α} (h : l ≠ []) :
    l.isEmpty = false := by
  cases l with
  | nil => exact absurd rfl h
  | cons a t => rfl

/-- C4: the post-generation repair pass is idempotent: a draft that is
already valid (nonempty trimmed title of at most 200 characters, a due
date matching `YYYY-MM-DD` that parses to a real date not before the
reference date, a due time matching `HH:MM`, a recognized priority, a
list-of-strings category, and an absent or already-trimmed description of
at most 1000 characters) is left unchanged in every field. -/
theorem repair_idempotent_on_valid (d : Draft) (ref : CalDate)
    (htitle : ∃ t, d.title = some t ∧ jsTrim t = t ∧ t.toList ≠ [] ∧
      t.toList.length ≤ 200)
    (hdate : ∃ s dt, d.due_date = some s ∧ parseDate s = some dt ∧
      isValidDate dt = true ∧ dateLt dt ref = false)
    (htime : ∃ tm, d.due_time = some tm ∧ matchesStrictTimeRegex tm = true)
    (hprio : d.priority = some "high" ∨ d.priority = some "medium" ∨
      d.priority = some "low")
    (hcat : ∃ cats, d.category = .ofList cats)
    (hdesc : d.description = none ∨ ∃ ds, d.description = some ds ∧
      jsTrim ds = ds ∧ ds.toList.length ≤ 1000) :
    repairDraft d ref = d := by
  obtain ⟨t, hT, hTtrim, hTne, hTlen⟩ := htitle
  obtain ⟨s, dt, hS, hSp, hSv, hSl⟩ := hdate
  obtain ⟨tm, hM, hMs⟩ := htime
  obtain ⟨cats, hC⟩ := hcat
  have hTE : t.toList.isEmpty = false := isEmpty_false_of_ne_nil hTne
  have hMs' : matchesStrictTimeRegexChars tm.toList = true := hMs
  have hME : tm.toList.isEmpty = false :=
    isEmpty_false_of_ne_nil (strict_time_ne_nil hMs')
  have hMlen : matchesTimeRegex tm = true := strict_time_imp_lenient hMs'
  have hSE : s.toList.isEmpty = false := parseDate_ne_nil hSp
  refine Draft.ext ?_ ?_ ?_ ?_ ?_ ?_
  · rw [repairDraft_title, hT]
    simp only [hTtrim, hTE, Bool.false_eq_true, if_false]
    have h1 : ¬(t.toList.length < 1) := by
      have := List.length_pos.mpr hTne
      omega
    have h2 : ¬(t.toList.length > 200) := by omega
    rw [if_neg h1, if_neg h2]
  · rw [repairDraft_description]
    rcases hdesc with h | ⟨ds, hds, hdstrim, hdslen⟩
    · rw [h]
    · rw [hds]
      show (if ds.toList.isEmpty = true then some ds
        else if (jsTrim ds).toList.length > 1000 then
          some (String.mk ((jsTrim ds).toList.take 1000) ++ "...")
        else some (jsTrim ds)) = some ds
      cases hq : ds.toList.isEmpty with
      | true => rw [if_pos rfl]
      | false =>
        simp only [Bool.false_eq_true, if_false, hdstrim]
        rw [if_neg (by omega)]
  · rw [repairDraft_due_date, hS]
    simp only [hSE, Bool.false_eq_true, if_false, hSp, hSv, hSl,
      Bool.not_true]
  · rw [repairDraft_due_time, hM]
    show some (if tm.toList.isEmpty = true then "09:00"
      else if matchesTimeRegex tm = true then tm else "09:00") = some tm
    rw [hME]
    simp only [Bool.false_eq_true, if_false]
    rw [hMlen, if_pos rfl]
  · rcases hprio with h | h | h <;> rw [repairDraft_priority, h] <;> rfl
  · rw [repairDraft_category, hC]

/-- Witness for C4: repairing a concrete already-valid draft leaves it
unchanged. -/
theorem repair_idempotent_on_valid_witness :
    repairDraft ⟨some "회의", some "준비", some "2026-03-02", some "14:00",
        some "high", .ofList ["업무"]⟩ ⟨2026, 1, 15⟩ =
      ⟨some "회의", some "준비", some "2026-03-02", some "14:00",
        some "high", .ofList ["업무"]⟩ :=
  repair_idempotent_on_valid _ _
    ⟨"회의", rfl, by decide, by decide, by decide⟩
    ⟨"2026-03-02", ⟨2026, 3, 2⟩, rfl, by decide, by decide, by decide⟩
    ⟨"14:00", rfl, by decide⟩
    (Or.inl rfl)
    ⟨["업무"], rfl⟩
    (Or.inr ⟨"준비", rfl, by decide, by decide⟩)

/-- A string whose trimmed length is out of range fails `validateInput`
with status 400. -/
theorem validateInput_out_of_range {s : String}
    (h : (jsTrim s).toList.length < 2 ∨ (jsTrim s).toList.length > 500) :
    ∃ msg, validateInput (.str s) = ⟨false, some msg, some 400⟩ := by
  simp only [validateInput]
  split_ifs with h1 h2 h3 h4
  · exact ⟨_, rfl⟩
  · exact ⟨_, rfl⟩
  · exact ⟨_, rfl⟩
  · exact ⟨_, rfl⟩
  · omega

/-- C2: for every normalizer request whose input is absent, not a string,
or whose trimmed length is below 2 or above 500, the route responds with
HTTP 400 and `success: false` before the completion service would be
called (the result is a `rejected` step, never a `serviceCall`). -/
theorem generate_todo_rejects_invalid_input (input : NLInput)
    (apiKeyPresent : Bool)
    (h : input = .absent ∨ input = .nonString ∨
      ∃ s, input = .str s ∧
        ((jsTrim s).toList.length < 2 ∨ (jsTrim s).toList.length > 500)) :
    ∃ msg, generateTodoStep input apiKeyPresent = .rejected 400 false msg := by
  rcases h with h | h | ⟨s, h, hlen⟩ <;> subst h
  · exact ⟨_, rfl⟩
  · exact ⟨_, rfl⟩
  · obtain ⟨msg, hmsg⟩ := validateInput_out_of_range hlen
    refine ⟨msg, ?_⟩
    show (let validation := validateInput (.str s)
      if validation.valid then
        if apiKeyPresent then NormStep.serviceCall (preprocessInput s)
        else NormStep.rejected 500 false "AI 서비스 설정 오류가 발생했습니다."
      else NormStep.rejected (validation.status.getD 400) false
        (validation.error.getD "할 일 생성 중 오류가 발생했습니다.")) =
      NormStep.rejected 400 false msg
    rw [hmsg]
    rfl

/-- Witness for C2: the one-character input "a" is rejected with 400. -/
theorem generate_todo_rejects_invalid_input_witness :
    (jsTrim "a").toList.length < 2 ∧
    ∃ msg, generateTodoStep (.str "a") true = .rejected 400 false msg :=
  ⟨by decide, generate_todo_rejects_invalid_input (.str "a") true
    (Or.inr (Or.inr ⟨"a", rfl, Or.inl (by decide)⟩))⟩

/-- C6: for every task list, completed plus incomplete counts equal the
total, the completion rate lies between 0 and 100, and the rate is 0 for
an empty list. -/
theorem summary_stats_consistent (todos : List TodoT) :
    completedTasks todos + incompleteTasks todos = totalTasks todos ∧
    0 ≤ completionRate todos ∧ completionRate todos ≤ 100 ∧
    (totalTasks todos = 0 → completionRate todos = 0) := by
  have hle : completedTasks todos ≤ totalTasks todos :=
    List.length_filter_le _ _
  refine ⟨?_, ?_, ?_, ?_⟩
  · unfold incompleteTasks
    omega
  · unfold completionRate
    split_ifs with h
    · positivity
    · exact le_refl 0
  · unfold completionRate
    split_ifs with h
    · have h0 : (0 : ℚ) < (totalTasks todos : ℚ) := by exact_mod_cast h
      have hc : (completedTasks todos : ℚ) ≤ (totalTasks todos : ℚ) := by
        exact_mod_cast hle
      rw [div_mul_eq_mul_div, div_le_iff₀ h0]
      nlinarith
    · norm_num
  · intro h
    unfold completionRate
    rw [if_neg (by omega)]

/-- Witness for C6's conditional part: the empty list has completion
rate 0. -/
theorem summary_stats_consistent_witness : completionRate [] = 0 :=
  (summary_stats_consistent []).2.2.2 rfl

/-- C8: for every summarizer request whose task list is absent or not a
list, or whose period is anything other than "today" or "week", the route
responds with HTTP 400 and `success: false` before the completion service
would be called (the result is a `rejected` step, never a
`serviceCall`). -/
theorem analyze_rejects_invalid_input (todos : TodosField)
    (period : PeriodField) (apiKeyPresent : Bool)
    (h : todos = .absent ∨ todos = .notList ∨ period = .absent ∨
      ∃ p, period = .str p ∧ p ≠ "today" ∧ p ≠ "week") :
    ∃ msg, analyzeTodosStep todos period apiKeyPresent =
      .rejected 400 false msg := by
  rcases htd : todos with _ | _ | ts
  · exact ⟨_, rfl⟩
  · exact ⟨_, rfl⟩
  · subst htd
    rcases h with h | h | h | ⟨p, hp, hp1, hp2⟩
  -- the first two disjuncts contradict the `ofList` shape
    · exact absurd h (by simp)
    · exact absurd h (by simp)
    · subst h
      exact ⟨_, rfl⟩
    · subst hp
      refine ⟨"분석 기간이 필요합니다 (today/week).", ?_⟩
      show (if p.toList.isEmpty then
          AnalyzeStep.rejected 400 false "분석 기간이 필요합니다 (today/week)."
        else if p ≠ "today" ∧ p ≠ "week" then
          AnalyzeStep.rejected 400 false "분석 기간이 필요합니다 (today/week)."
        else if !apiKeyPresent then
          AnalyzeStep.rejected 500 false "AI 서비스 설정 오류가 발생했습니다."
        else AnalyzeStep.serviceCall ts p) =
        AnalyzeStep.rejected 400 false "분석 기간이 필요합니다 (today/week)."
      split_ifs with h1 h2 h3
      · rfl
      · rfl
      · exact absurd ⟨hp1, hp2⟩ h2
      · exact absurd ⟨hp1, hp2⟩ h2

/-- Witness for C8: the unrecognized period "tomorrow" is rejected with
400 even though the task list is a list. -/
theorem analyze_rejects_invalid_input_witness :
    ∃ msg, analyzeTodosStep (.ofList []) (.str "tomorrow") true =
      .rejected 400 false msg :=
  analyze_rejects_invalid_input (.ofList []) (.str "tomorrow") true
    (Or.inr (Or.inr (Or.inr ⟨"tomorrow", rfl, by decide, by decide⟩)))

/-- C9: invoking the analysis handler on an empty task list (any period,
any period bounds) yields the caller-facing "nothing to analyze" message;
the summarizer route is never fetched, so the completion service is not
called. -/
theorem analyze_empty_list_no_service_call (period : Period)
    (b : PeriodBounds) :
    handleAnalyzeTodos [] period b =
      .nothingToAnalyze "분석할 할 일이 없습니다." := rfl

/-- Head of the descending stable sort of three slot/rate entries. -/
theorem sortDesc_three_head (a b c dflt : Slot × ℚ) :
    (([a, b, c].mergeSort (fun x y => decide (y.2 ≤ x.2))).headD dflt) =
      (if b.2 ≤ a.2 then (if c.2 ≤ a.2 then a else c)
       else (if c.2 ≤ b.2 then b else c)) := by
  rw [mergeSort_three_head]
  simp only [decide_eq_true_eq]

/-- C7: the most-productive-time-slot selection is deterministic and
breaks rate ties in favour of the earlier slot in the fixed order
morning, afternoon, evening: morning wins whenever its rate is at least
both others; afternoon wins only by strictly beating morning; evening
wins only by strictly beating both. -/
theorem most_productive_slot_tiebreak (todos : List TodoT) :
    ((slotRate (timeSlotCount todos).afternoon ≤
        slotRate (timeSlotCount todos).morning ∧
      slotRate (timeSlotCount todos).evening ≤
        slotRate (timeSlotCount todos).morning) →
      mostProductiveTimeSlot todos =
        (.morning, slotRate (timeSlotCount todos).morning)) ∧
    ((slotRate (timeSlotCount todos).morning <
        slotRate (timeSlotCount todos).afternoon ∧
      slotRate (timeSlotCount todos).evening ≤
        slotRate (timeSlotCount todos).afternoon) →
      mostProductiveTimeSlot todos =
        (.afternoon, slotRate (timeSlotCount todos).afternoon)) ∧
    ((slotRate (timeSlotCount todos).morning <
        slotRate (timeSlotCount todos).evening ∧
      slotRate (timeSlotCount todos).afternoon <
        slotRate (timeSlotCount todos).evening) →
      mostProductiveTimeSlot todos =
        (.evening, slotRate (timeSlotCount todos).evening)) := by
  have hm2 : mostProductiveTimeSlot todos =
      (([(Slot.morning, slotRate (timeSlotCount todos).morning),
         (Slot.afternoon, slotRate (timeSlotCount todos).afternoon),
         (Slot.evening, slotRate (timeSlotCount todos).evening)].mergeSort
        (fun x y => decide (y.2 ≤ x.2))).headD (Slot.morning, 0)) := rfl
  have hh := sortDesc_three_head
    (Slot.morning, slotRate (timeSlotCount todos).morning)
    (Slot.afternoon, slotRate (timeSlotCount todos).afternoon)
    (Slot.evening, slotRate (timeSlotCount todos).evening) (Slot.morning, 0)
  rw [← hm2] at hh
  refine ⟨?_, ?_, ?_⟩
  · rintro ⟨h1, h2⟩
    rw [hh, if_pos h1, if_pos h2]
  · rintro ⟨h1, h2⟩
    rw [hh, if_neg (not_le.mpr h1), if_pos h2]
  · rintro ⟨h1, h2⟩
    by_cases hab : slotRate (timeSlotCount todos).afternoon ≤
        slotRate (timeSlotCount todos).morning
    · rw [hh, if_pos hab, if_neg (not_le.mpr h1)]
    · rw [hh, if_neg hab, if_neg (not_le.mpr h2)]

/-- Witness for C7: the empty list has all rates 0, so the tie goes to
the morning slot. -/
theorem most_productive_slot_tiebreak_witness :
    mostProductiveTimeSlot [] = (Slot.morning, 0) :=
  (most_productive_slot_tiebreak []).1 ⟨by decide, by decide⟩

/-- The per-slot totals of the `timeSlotCount` fold, relative to an
arbitrary starting accumulator. -/
theorem timeSlotCount_total_go (todos : List TodoT) : ∀ acc : TimeSlots,
    ((todos.foldl timeSlotStep acc).morning.total =
      acc.morning.total + (todos.filter (dueInSlot .morning)).length) ∧
    ((todos.foldl timeSlotStep acc).afternoon.total =
      acc.afternoon.total + (todos.filter (dueInSlot .afternoon)).length) ∧
    ((todos.foldl timeSlotStep acc).evening.total =
      acc.evening.total + (todos.filter (dueInSlot .evening)).length) := by
  induction todos with
  | nil => intro acc; simp
  | cons t ts ih =>
    intro acc
    obtain ⟨ihm, iha, ihe⟩ := ih (timeSlotStep acc t)
    simp only [List.foldl_cons, List.filter_cons]
    rcases hdue : t.due with _ | d
    · have hstep : timeSlotStep acc t = acc := by
        simp [timeSlotStep, hdue]
      rw [hstep] at ihm iha ihe
      have hm : dueInSlot .morning t = false := by simp [dueInSlot, hdue]
      have ha : dueInSlot .afternoon t = false := by simp [dueInSlot, hdue]
      have he : dueInSlot .evening t = false := by simp [dueInSlot, hdue]
      rw [hstep]
      simp only [hm, ha, he, Bool.false_eq_true, if_false]
      exact ⟨ihm, iha, ihe⟩
    · cases hslot : slotOfHour d.hour with
      | morning =>
        have hstep : timeSlotStep acc t =
            { acc with morning := bumpSlot acc.morning t.completed } := by
          simp [timeSlotStep, hdue, hslot]
        have hm : dueInSlot .morning t = true := by
          simp [dueInSlot, hdue, hslot]
        have ha : dueInSlot .afternoon t = false := by
          simp [dueInSlot, hdue, hslot]
        have he : dueInSlot .evening t = false := by
          simp [dueInSlot, hdue, hslot]
        simp only [hm, ha, he, Bool.false_eq_true, if_false, if_true,
          List.length_cons]
        refine ⟨?_, ?_, ?_⟩
        · rw [ihm, hstep]
          simp [bumpSlot]
          omega
        · rw [iha, hstep]
        · rw [ihe, hstep]
      | afternoon =>
        have hstep : timeSlotStep acc t =
            { acc with afternoon := bumpSlot acc.afternoon t.completed } := by
          simp [timeSlotStep, hdue, hslot]
        have hm : dueInSlot .morning t = false := by
          simp [dueInSlot, hdue, hslot]
        have ha : dueInSlot .afternoon t = true := by
          simp [dueInSlot, hdue, hslot]
        have he : dueInSlot .evening t = false := by
          simp [dueInSlot, hdue, hslot]
        simp only [hm, ha, he, Bool.false_eq_true, if_false, if_true,
          List.length_cons]
        refine ⟨?_, ?_, ?_⟩
        · rw [ihm, hstep]
        · rw [iha, hstep]
          simp [bumpSlot]
          omega
        · rw [ihe, hstep]
      | evening =>
        have hstep : timeSlotStep acc t =
            { acc with evening := bumpSlot acc.evening t.completed } := by
          simp [timeSlotStep, hdue, hslot]
        have hm : dueInSlot .morning t = false := by
          simp [dueInSlot, hdue, hslot]
        have ha : dueInSlot .afternoon t = false := by
          simp [dueInSlot, hdue, hslot]
        have he : dueInSlot .evening t = true := by
          simp [dueInSlot, hdue, hslot]
        simp only [hm, ha, he, Bool.false_eq_true, if_false, if_true,
          List.length_cons]
        refine ⟨?_, ?_, ?_⟩
        · rw [ihm, hstep]
        · rw [iha, hstep]
        · rw [ihe, hstep]
          simp [bumpSlot]
          omega

/-- Each task with a due timestamp lands in exactly one slot, so the
three per-slot filters partition the tasks that have a due timestamp. -/
theorem slot_filter_sum (todos : List TodoT) :
    (todos.filter (dueInSlot .morning)).length +
      (todos.filter (dueInSlot .afternoon)).length +
      (todos.filter (dueInSlot .evening)).length =
    (todos.filter hasDue).length := by
  induction todos with
  | nil => rfl
  | cons t ts ih =>
    simp only [List.filter_cons]
    rcases hdue : t.due with _ | d
    · simp only [show dueInSlot .morning t = false by simp [dueInSlot, hdue],
        show dueInSlot .afternoon t = false by simp [dueInSlot, hdue],
        show dueInSlot .evening t = false by simp [dueInSlot, hdue],
        show hasDue t = false by simp [hasDue, hdue],
        Bool.false_eq_true, if_false]
      exact ih
    · have hD : hasDue t = true := by simp [hasDue, hdue]
      cases hslot : slotOfHour d.hour <;>
        simp only [show dueInSlot .morning t = decide (slotOfHour d.hour = .morning)
            by simp [dueInSlot, hdue],
          show dueInSlot .afternoon t = decide (slotOfHour d.hour = .afternoon)
            by simp [dueInSlot, hdue],
          show dueInSlot .evening t = decide (slotOfHour d.hour = .evening)
            by simp [dueInSlot, hdue],
          hslot, hD, decide_eq_true_eq, if_true, List.length_cons] <;>
        simp <;> omega

/-- C10: the time-slot statistics count exactly the tasks that have a due
timestamp, each in the single slot its due hour determines (hour < 12
morning, hour < 18 afternoon, otherwise evening); the three slot totals
sum to the number of tasks with a due timestamp, which is at most the
total task count, and tasks without a due timestamp appear in no slot. -/
theorem time_slot_partition (todos : List TodoT) :
    (timeSlotCount todos).morning.total =
      (todos.filter (dueInSlot .morning)).length ∧
    (timeSlotCount todos).afternoon.total =
      (todos.filter (dueInSlot .afternoon)).length ∧
    (timeSlotCount todos).evening.total =
      (todos.filter (dueInSlot .evening)).length ∧
    (timeSlotCount todos).morning.total +
      (timeSlotCount todos).afternoon.total +
      (timeSlotCount todos).evening.total =
      (todos.filter hasDue).length ∧
    (todos.filter hasDue).length ≤ totalTasks todos := by
  obtain ⟨hm, ha, he⟩ := timeSlotCount_total_go todos ⟨⟨0, 0⟩, ⟨0, 0⟩, ⟨0, 0⟩⟩
  have hm2 : (timeSlotCount todos).morning.total =
      (todos.filter (dueInSlot .morning)).length := by
    unfold timeSlotCount
    rw [hm]
    simp
  have ha2 : (timeSlotCount todos).afternoon.total =
      (todos.filter (dueInSlot .afternoon)).length := by
    unfold timeSlotCount
    rw [ha]
    simp
  have he2 : (timeSlotCount todos).evening.total =
      (todos.filter (dueInSlot .evening)).length := by
    unfold timeSlotCount
    rw [he]
    simp
  refine ⟨hm2, ha2, he2, ?_, List.length_filter_le _ _⟩
  rw [hm2, ha2, he2, slot_filter_sum]

/-- Witness for the amended C3 at a concrete draft: an absent service
time yields exactly "09:00", which matches the lenient regex. -/
theorem repair_due_time_lenient_witness :
    ∃ t, (repairDraft ⟨none, none, none, none, none, .missing⟩
        ⟨2026, 1, 15⟩).due_time = some t ∧ matchesTimeRegex t = true ∧
      t = "09:00" :=
  repair_due_time_lenient ⟨none, none, none, none, none, .missing⟩
    ⟨2026, 1, 15⟩
